import Mathlib

/-!
Verification of the game-import workflow of `lutris/gui/dialogs/game_import.py`
(`ImportGameDialog`).  The dialog receives an ordered list of file paths,
hashes each file on a worker thread, looks the checksum up in a remote
catalog, and — back on the UI thread — synthesizes a default installer,
writes a game config, inserts a database row and optionally launches the
resulting game.

The embedding below is shallow: each method of the dialog becomes a pure
Lean function.  External collaborators (the path cache, the hashers, the
catalog lookup, `guess_platform`, `clean_rom_name`, `slugify`,
`write_game_config`, the media download) are fields of an `Env` record.
Observable side effects — checksum computations, catalog lookups, accesses
to the default-installer store, config writes, database inserts, media
downloads, lifecycle signals and game launches — are recorded as an
explicit list of `Event`s returned alongside the new state, so that
"never computes a checksum", "no installer-template lookup is attempted",
and so on become statements about that list.
-/

namespace GameImport

/-- One entry of a rom set's `"roms"` list; the code only reads its `"md5"`
key (`rom["md5"]`, raising `KeyError` when absent). -/
structure RomEntry where
  md5 : Option String
deriving DecidableEq, Repr

/-- A rom set as returned by the remote catalog (`search_tosec_by_md5`):
a JSON-derived dictionary.  The workflow reads its `"name"` key, the
`"name"` of its `"category"` and its `"roms"`; catalog data never contains the
`"game"` or `"error"` keys, which only the dialog itself inserts. -/
structure CatRomSet where
  name : Option String
  category : Option String
  roms : List RomEntry
deriving DecidableEq, Repr

/-- The three shapes of rom-set dictionary that `search_checksums` ever
stores into its result map:
* `installed gid nm` — `{"name": game.name, "game": game, "roms": []}` for a
  file found in the installed-game path cache;
* `catalog c` — a rom set returned by the catalog lookup;
* `errored msg` — `{"error": error, "roms": []}` built in the `except` arm. -/
inductive RomSet where
  | installed (gameId : Nat) (gameName : String)
  | catalog (c : CatRomSet)
  | errored (msg : String)
deriving DecidableEq, Repr

/-- `"error" in rom_set` / `rom_set["error"]`. -/
def RomSet.errorKey : RomSet → Option String
  | .errored m => some m
  | _ => none

/-- `"game" in rom_set` / `rom_set["game"]` (the installed game's id). -/
def RomSet.gameKey : RomSet → Option Nat
  | .installed gid _ => some gid
  | _ => none

/-- `rom_set["roms"]`. -/
def RomSet.romsKey : RomSet → List RomEntry
  | .catalog c => c.roms
  | _ => []

/-- A default installer template (`DEFAULT_INSTALLERS[platform]`): a
`"runner"` identifier and the `"game"` config section, a mapping of keys to
values in which the value `"rom"` is the placeholder for the file path. -/
structure Installer where
  runner : String
  game : List (String × String)
deriving DecidableEq, Repr

/-- A row of the games database, with the exact fields passed to
`add_game(...)` at the end of `ImportGameDialog.add_game`. -/
structure GameRecord where
  id : Nat
  name : String
  runner : String
  slug : String
  directory : String
  installed : Nat
  installer_slug : String
  configpath : String
deriving DecidableEq, Repr

/-- The games database: the next id to hand out and the inserted rows. -/
structure DB where
  nextId : Nat
  games : List GameRecord
deriving DecidableEq, Repr

/-- Observable side effects of the workflow. -/
inductive Event where
  | hashZip (path : String)
  | hashFile (path : String)
  | lookup (md5 : String)
  | installerLookup (platform : String)
  | configWrite (slug : String) (installer : Installer)
  | dbInsert (gameId : Nat)
  | mediaDownload (slug : String) (ok : Bool)
  | emitInstalled (gameId : Nat)
  | emitUpdated (gameId : Nat)
  | launch (gameId : Nat)
deriving DecidableEq, Repr

/-- External collaborators of the dialog, as consumed interfaces.

The field `downloadMedia` is *modelled from the spec*: the function
`download_lutris_media` lives in `lutris/services/lutris.py`, outside the
sources verified here; the spec describes it as a best-effort media
download whose failure does not raise into the caller ("fire-and-forget;
its failure does not fail the import").  It is therefore modelled as a
total function returning a success flag which the import code never
inspects. -/
structure Env where
  /-- `get_path_cache()`: mapping from installed game id to source file path. -/
  pathCache : List (Nat × String)
  /-- `Game(game_id).name`. -/
  gameName : Nat → String
  /-- `get_md5_in_zip(filename)`. -/
  md5OfZip : String → Except String String
  /-- `get_md5_hash(filename)`. -/
  md5OfFile : String → Except String String
  /-- `search_tosec_by_md5(md5)`: catalog lookup, may raise. -/
  searchTosec : String → Except String (List CatRomSet)
  /-- `guess_platform(rom_set)`. -/
  guessPlatform : CatRomSet → Option String
  /-- `clean_rom_name(name)`. -/
  cleanRomName : String → String
  /-- `slugify(name)`. -/
  slugify : String → String
  /-- `write_game_config(slug, installer)`, returning the config path. -/
  writeGameConfig : String → Installer → Except String String
  /-- Modelled from the spec: `download_lutris_media(slug)` (not in the
  verified sources); best-effort, never raises into the caller. -/
  downloadMedia : String → Bool

/-- UI-thread state of the dialog: the default-installer store
(`DEFAULT_INSTALLERS`), the games database, the per-file error labels
(file path to displayed message), and `self.platform`. -/
structure UIState where
  installers : List (String × Installer)
  db : DB
  errorLabels : List (String × String)
  platform : Option String
deriving DecidableEq, Repr

/-- Ordered-dictionary insert: Python `d[k] = v` on a dict built by such
inserts — replace the value in place when the key is present, else append. -/
def odInsert {α : Type} : List (String × α) → String → α → List (String × α)
  | [], k, v => [(k, v)]
  | (k1, v1) :: rest, k, v =>
    if k1 = k then (k, v) :: rest else (k1, v1) :: odInsert rest k v

/-- First value bound to a key in an association list (Python dict lookup). -/
def lookupAssoc {α : Type} : List (String × α) → String → Option α
  | [], _ => none
  | (k1, v1) :: rest, k => if k1 = k then some v1 else lookupAssoc rest k

/-- Setting a file's error label (`error_label.set_markup(...); show()`). -/
def showError (st : UIState) (filename msg : String) : UIState :=
  { st with errorLabels := odInsert st.errorLabels filename msg }

/-- `str(KeyError(k))` as displayed by the error label. -/
def keyErrorMsg (k : String) : String := "'" ++ k ++ "'"

/-- `filename.lower().endswith(".zip")`, computed on the character list so
that it evaluates on concrete inputs. -/
def endsWithZip (s : String) : Bool :=
  (s.data.map Char.toLower).reverse.take 4 == ['p', 'i', 'z', '.']

/-- The message of the `RuntimeError` raised for an empty catalog result. -/
def notIdentifiedMsg : String := "This ROM could not be identified."

/-- `'%s' % self.platform` when `self.platform` may be `None`. -/
def platformStr : Option String → String
  | none => "None"
  | some p => p

/-- The loop `for game_id in game_path_cache: if game_path_cache[game_id] ==
filename: result = [{"name": game.name, "game": game, "roms": []}]` —
the final value of `result` is determined by the last matching entry. -/
def installedResult (env : Env) (filename : String) : Option (List RomSet) :=
  env.pathCache.foldl
    (fun acc p =>
      if p.2 = filename then some [RomSet.installed p.1 (env.gameName p.1)] else acc)
    none

/-- One iteration of the loop in `search_checksums`: the events performed
for one file and the rom-set list stored into `results[filename]`. -/
def searchFile (env : Env) (filename : String) : List Event × List RomSet :=
  if filename ∈ env.pathCache.map Prod.snd then
    ([], (installedResult env filename).getD [])
  else
    let hashEv := if endsWithZip filename then Event.hashZip filename else Event.hashFile filename
    let md5E := if endsWithZip filename then env.md5OfZip filename else env.md5OfFile filename
    match md5E with
    | .error e => ([hashEv], [RomSet.errored e])
    | .ok md5 =>
      match env.searchTosec md5 with
      | .error e => ([hashEv, Event.lookup md5], [RomSet.errored e])
      | .ok [] => ([hashEv, Event.lookup md5], [RomSet.errored notIdentifiedMsg])
      | .ok l => ([hashEv, Event.lookup md5], l.map RomSet.catalog)

/-- `ImportGameDialog.search_checksums`: the worker-thread pass over all
files, producing the performed events and the ordered result map. -/
def search_checksums (env : Env) (files : List String) :
    List Event × List (String × List RomSet) :=
  files.foldl
    (fun acc f =>
      (acc.1 ++ (searchFile env f).1, odInsert acc.2 f (searchFile env f).2))
    ([], [])

/-- `ImportGameDialog.display_game_info`: reads `rom_set["name"]` and
`rom_set["category"]["name"]`, sets `self.platform = guess_platform(rom_set)`
and raises when the platform is unknown.  Returns the updated state and the
message of the exception raised, if any. -/
def display_game_info (env : Env) (st : UIState) (c : CatRomSet) :
    UIState × Option String :=
  match c.name with
  | none => (st, some (keyErrorMsg "name"))
  | some _ =>
    match c.category with
    | none => (st, some (keyErrorMsg "category"))
    | some cat =>
      let st2 := { st with platform := env.guessPlatform c }
      match env.guessPlatform c with
      | none => (st2, some ("The platform '" ++ cat ++ "' is unknown to Lutris."))
      | some _ => (st2, none)

/-- `ImportGameDialog.add_game`: clean the name, take the default installer
(`deepcopy(DEFAULT_INSTALLERS[self.platform])`), fill the `"rom"`
placeholders of the copy's game section with the file path, slugify, write
the config, insert the database row, trigger the media download.  Returns
the events, the new state, and the game id or the raised message. -/
def fillRom (tmpl : Installer) (filepath : String) : Installer :=
  { tmpl with game := tmpl.game.map (fun kv => (kv.1, if kv.2 = "rom" then filepath else kv.2)) }

def add_game (env : Env) (st : UIState) (c : CatRomSet) (filepath : String) :
    List Event × UIState × Except String Nat :=
  match c.name with
  | none => ([], st, .error (keyErrorMsg "name"))
  | some n =>
    let name := env.cleanRomName n
    let pstr := platformStr st.platform
    match st.platform >>= lookupAssoc st.installers with
    | none =>
      ([Event.installerLookup pstr], st,
       .error ("Lutris does not have a default installer for the '" ++ pstr ++ "' platform."))
    | some tmpl =>
      let installer := fillRom tmpl filepath
      let slug := env.slugify name
      match env.writeGameConfig slug installer with
      | .error e => ([Event.installerLookup pstr], st, .error e)
      | .ok configpath =>
        let gid := st.db.nextId
        let g : GameRecord :=
          { id := gid, name := name, runner := installer.runner, slug := slug,
            directory := "", installed := 1,
            installer_slug := slug ++ "-" ++ installer.runner, configpath := configpath }
        ([Event.installerLookup pstr, Event.configWrite slug installer,
          Event.dbInsert gid, Event.mediaDownload slug (env.downloadMedia slug)],
         { st with db := { nextId := gid + 1, games := st.db.games ++ [g] } },
         .ok gid)

/-- `ImportGameDialog.import_rom`: try to install one rom set for one file;
on any exception show it in the file's error label and return `False`.
Returns the events, the new state and the success flag. -/
def import_rom (env : Env) (st : UIState) (rs : RomSet) (filename : String)
    (launch_game : Bool) : List Event × UIState × Bool :=
  match rs with
  | .errored e => ([], showError st filename e, false)
  | .installed _ _ => ([], st, false)
  | .catalog c =>
    match c.roms with
    | [] => ([], st, false)
    | rom :: _ =>
      match rom.md5 with
      | none => ([], showError st filename (keyErrorMsg "md5"), false)
      | some _ =>
        let d := display_game_info env st c
        match d.2 with
        | some e => ([], showError d.1 filename e, false)
        | none =>
          let a := add_game env d.1 c filename
          match a.2.2 with
          | .error e => (a.1, showError a.2.1 filename e, false)
          | .ok gid =>
            (a.1 ++
               (if launch_game then
                  [Event.emitInstalled gid, Event.emitUpdated gid, Event.launch gid]
                else
                  [Event.emitInstalled gid, Event.emitUpdated gid]),
             a.2.1, true)

/-- The inner loop of `search_result_finished`: try each rom set of a file
until one imports (`break` on the first success). -/
def processResult (env : Env) (filename : String) (launch_game : Bool) :
    UIState → List RomSet → List Event × UIState × Bool
  | st, [] => ([], st, false)
  | st, rs :: rest =>
    let p := import_rom env st rs filename launch_game
    if p.2.2 then (p.1, p.2.1, true)
    else
      let q := processResult env filename launch_game p.2.1 rest
      (p.1 ++ q.1, q.2.1, q.2.2)

/-- The outer loop of `search_result_finished`: process the files in order;
after a successful import, stop the whole batch when `launch_game` is set. -/
def processFiles (env : Env) (launch_game : Bool) :
    UIState → List (String × List RomSet) → List Event × UIState × Bool
  | st, [] => ([], st, false)
  | st, (fn, r) :: rest =>
    let p := processResult env fn launch_game st r
    if p.2.2 && launch_game then (p.1, p.2.1, true)
    else
      let q := processFiles env launch_game p.2.1 rest
      (p.1 ++ q.1, q.2.1, q.2.2)

/-- First rom set carrying a `"game"` key in one file's result list. -/
def firstInstalledIn : List RomSet → Option Nat
  | [] => none
  | RomSet.installed gid _ :: _ => some gid
  | _ :: rest => firstInstalledIn rest

/-- First rom set carrying a `"game"` key across the whole result map, in
iteration order — the game `search_result_finished` prefers to launch. -/
def firstInstalled : List (String × List RomSet) → Option Nat
  | [] => none
  | (_, r) :: rest =>
    match firstInstalledIn r with
    | some gid => some gid
    | none => firstInstalled rest

/-- `ImportGameDialog.search_result_finished` (the success path; a worker
error is only logged and aborts the display).  When auto-launch is active,
an already-installed match is launched and processing stops; otherwise the
files are imported in order. -/
def search_result_finished (env : Env) (st : UIState)
    (results : List (String × List RomSet)) (launch_game : Bool) :
    List Event × UIState :=
  if launch_game then
    match firstInstalled results with
    | some gid => ([Event.launch gid], st)
    | none =>
      let p := processFiles env launch_game st results
      (p.1, p.2.1)
  else
    let p := processFiles env launch_game st results
    (p.1, p.2.1)

/-- Initial UI state: the installer store, the database, no error labels,
`self.platform = None`. -/
def initState (installers : List (String × Installer)) (db : DB) : UIState :=
  { installers := installers, db := db, errorLabels := [], platform := none }

/-- The whole workflow: worker pass then UI pass. -/
def runImport (env : Env) (installers : List (String × Installer)) (db : DB)
    (files : List String) (launch_game : Bool) : List Event × UIState :=
  let sc := search_checksums env files
  let r := search_result_finished env (initState installers db) sc.2 launch_game
  (sc.1 ++ r.1, r.2)

/-- Default state of the auto-launch check button:
`Gtk.CheckButton(_("Launch game"), visible=True, active=len(files) == 1)`. -/
def autoLaunchDefault (files : List String) : Bool := files.length == 1

/-- Erase the result of media downloads from an event, for comparing runs
that differ only in the media-download collaborator. -/
def Event.stripMedia : Event → Event
  | .mediaDownload s _ => .mediaDownload s true
  | e => e

/-! Concrete data used to exercise the theorems on closed inputs. -/

/-- A default installer template with one `"rom"` placeholder. -/
def demoInstaller : Installer :=
  { runner := "snes9x", game := [("main_file", "rom"), ("platform", "snes")] }

/-- A catalog rom set identifying a concrete file. -/
def demoCat : CatRomSet :=
  { name := some "Super Game (USA)", category := some "Nintendo SNES",
    roms := [{ md5 := some "abc123" }] }

/-- A concrete environment where one file imports successfully. -/
def demoEnv : Env :=
  { pathCache := []
  , gameName := fun _ => "Existing Game"
  , md5OfZip := fun _ => .ok "abc123"
  , md5OfFile := fun _ => .ok "abc123"
  , searchTosec := fun _ => .ok [demoCat]
  , guessPlatform := fun _ => some "snes"
  , cleanRomName := fun n => n
  , slugify := fun n => n
  , writeGameConfig := fun s _ => .ok ("/configs/" ++ s ++ ".yml")
  , downloadMedia := fun _ => true }

def demoInstallers : List (String × Installer) := [("snes", demoInstaller)]

def demoDB : DB := { nextId := 10, games := [] }

/-- UI state right after a successful `display_game_info` for `demoCat`. -/
def demoState : UIState :=
  { installers := demoInstallers, db := demoDB, errorLabels := [], platform := some "snes" }

/-- The environment of C1's witness: one installed game in the path cache. -/
def demoEnvC1 : Env := { demoEnv with pathCache := [(7, "/roms/x.sfc")] }

/-- The environment of C5's counterexample: the catalog identifies the file
but returns a candidate whose `"roms"` list is empty. -/
def demoEnvC5 : Env :=
  { demoEnv with
    searchTosec := fun _ =>
      .ok [{ name := some "Some Game", category := some "Nintendo SNES", roms := [] }] }

/-- The environment of C7's counterexample: the catalog lookup raises. -/
def demoEnvC7 : Env :=
  { demoEnv with searchTosec := fun _ => .error "Unable to connect to server" }

/-- Every entry of a result map is the `searchFile` result of its key — the
invariant of the map `search_checksums` builds. -/
def Coherent (env : Env) (m : List (String × List RomSet)) : Prop :=
  ∀ kv ∈ m, kv.2 = (searchFile env kv.1).2

end GameImport

/-! # Theorems -/

namespace GameImport

/-- C10: the auto-launch option of the import dialog defaults to enabled
exactly when the batch contains a single file; for zero or two-or-more
files it defaults to disabled. -/
theorem c10_auto_launch_default (files : List String) :
    autoLaunchDefault files = true ↔ files.length = 1 := by
  simp [autoLaunchDefault]

/-- C9: a successful `add_game` inserts exactly one record carrying the
cleaned display name, the slug of the cleaned name, the template's runner,
empty directory, `installed = 1`, installer slug `<slug>-<runner>` and the
path returned by the config write; and in the synthesized installer every
game-section key whose template value is the `"rom"` placeholder is set to
the input file's path. -/
theorem c9_persisted_record (env : Env) (st : UIState) (c : CatRomSet)
    (fp n p : String) (tmpl : Installer) (cfg : String)
    (hname : c.name = some n)
    (hplat : st.platform = some p)
    (htmpl : lookupAssoc st.installers p = some tmpl)
    (hcfg : env.writeGameConfig (env.slugify (env.cleanRomName n)) (fillRom tmpl fp)
              = Except.ok cfg) :
    add_game env st c fp =
      ([Event.installerLookup p,
        Event.configWrite (env.slugify (env.cleanRomName n)) (fillRom tmpl fp),
        Event.dbInsert st.db.nextId,
        Event.mediaDownload (env.slugify (env.cleanRomName n))
          (env.downloadMedia (env.slugify (env.cleanRomName n)))],
       { st with
         db :=
           { nextId := st.db.nextId + 1,
             games := st.db.games ++
               [{ id := st.db.nextId,
                  name := env.cleanRomName n,
                  runner := tmpl.runner,
                  slug := env.slugify (env.cleanRomName n),
                  directory := "",
                  installed := 1,
                  installer_slug := env.slugify (env.cleanRomName n) ++ "-" ++ tmpl.runner,
                  configpath := cfg }] } },
       Except.ok st.db.nextId)
    ∧ (fillRom tmpl fp).runner = tmpl.runner
    ∧ ∀ k v, (k, v) ∈ tmpl.game → (k, if v = "rom" then fp else v) ∈ (fillRom tmpl fp).game := by
  refine ⟨?_, rfl, ?_⟩
  · simp only [add_game, hname, hplat, htmpl, Option.bind_eq_bind, Option.some_bind,
      platformStr]
    rw [hcfg]
    rfl
  · intro k v hkv
    simpa [fillRom] using List.mem_map_of_mem
      (fun kv : String × String => (kv.1, if kv.2 = "rom" then fp else kv.2)) hkv

/-- Witness for C9 at concrete inputs. -/
theorem c9_persisted_record_witness :
    add_game demoEnv demoState demoCat "/roms/a.sfc" =
      ([Event.installerLookup "snes",
        Event.configWrite "Super Game (USA)"
          { runner := "snes9x", game := [("main_file", "/roms/a.sfc"), ("platform", "snes")] },
        Event.dbInsert 10,
        Event.mediaDownload "Super Game (USA)" true],
       { installers := demoInstallers,
         db :=
           { nextId := 11,
             games :=
               [{ id := 10, name := "Super Game (USA)", runner := "snes9x",
                  slug := "Super Game (USA)", directory := "", installed := 1,
                  installer_slug := "Super Game (USA)-snes9x",
                  configpath := "/configs/Super Game (USA).yml" }] },
         errorLabels := [], platform := some "snes" },
       Except.ok 10) := by
  have h := c9_persisted_record demoEnv demoState demoCat "/roms/a.sfc"
    "Super Game (USA)" "snes" demoInstaller "/configs/Super Game (USA).yml"
    rfl rfl rfl rfl
  rw [h.1]
  rfl

/-- C6: a candidate whose category resolves to no known platform makes
`import_rom` record the unknown-platform failure for the file while
performing no observable action at all — in particular, no lookup in the
default-installer store is attempted. -/
theorem c6_unknown_platform (env : Env) (st : UIState) (f : String) (lg : Bool)
    (c : CatRomSet) (rom : RomEntry) (rest : List RomEntry) (m n cat : String)
    (hroms : c.roms = rom :: rest) (hmd5 : rom.md5 = some m)
    (hname : c.name = some n) (hcat : c.category = some cat)
    (hplat : env.guessPlatform c = none) :
    import_rom env st (RomSet.catalog c) f lg =
      ([],
       { st with
         platform := none,
         errorLabels := odInsert st.errorLabels f
           ("The platform '" ++ cat ++ "' is unknown to Lutris.") },
       false) := by
  simp [import_rom, hroms, hmd5, display_game_info, hname, hcat, hplat, showError]

/-- Witness for C6 at concrete inputs. -/
theorem c6_unknown_platform_witness :
    import_rom { demoEnv with guessPlatform := fun _ => none }
        (initState demoInstallers demoDB) (RomSet.catalog demoCat) "/roms/a.sfc" false =
      ([],
       { installers := demoInstallers,
         db := demoDB,
         errorLabels :=
           [("/roms/a.sfc", "The platform 'Nintendo SNES' is unknown to Lutris.")],
         platform := none },
       false) := by
  have h := c6_unknown_platform { demoEnv with guessPlatform := fun _ => none }
    (initState demoInstallers demoDB) "/roms/a.sfc" false demoCat
    { md5 := some "abc123" } [] "abc123" "Super Game (USA)" "Nintendo SNES"
    rfl rfl rfl rfl rfl
  rw [h]
  rfl

/-- The `result` loop of `search_checksums` leaves its accumulator alone
when no cache entry points at the file. -/
theorem installedResult_no_match (env : Env) (f : String) (l : List (Nat × String))
    (acc : Option (List RomSet)) (h : ∀ p ∈ l, p.2 ≠ f) :
    l.foldl
      (fun acc p =>
        if p.2 = f then some [RomSet.installed p.1 (env.gameName p.1)] else acc)
      acc = acc := by
  induction l generalizing acc with
  | nil => rfl
  | cons q rest ih =>
    simp only [List.foldl_cons]
    rw [if_neg (h q (List.mem_cons_self q rest))]
    exact ih acc (fun p hp => h p (List.mem_cons_of_mem q hp))

/-- When some cache entry points at the file, the `result` loop of
`search_checksums` ends on the installed rom set of a matching game id. -/
theorem installedResult_match (env : Env) (f : String) (l : List (Nat × String))
    (acc : Option (List RomSet)) (h : ∃ p ∈ l, p.2 = f) :
    ∃ gid, (gid, f) ∈ l ∧
      l.foldl
        (fun acc p =>
          if p.2 = f then some [RomSet.installed p.1 (env.gameName p.1)] else acc)
        acc = some [RomSet.installed gid (env.gameName gid)] := by
  induction l generalizing acc with
  | nil => simp at h
  | cons q rest ih =>
    by_cases hr : ∃ p ∈ rest, p.2 = f
    · obtain ⟨gid, hmem, heq⟩ := ih
        (if q.2 = f then some [RomSet.installed q.1 (env.gameName q.1)] else acc) hr
      exact ⟨gid, List.mem_cons_of_mem q hmem, by simpa only [List.foldl_cons] using heq⟩
    · have hq : q.2 = f := by
        obtain ⟨p, hp, hpf⟩ := h
        rcases List.mem_cons.mp hp with he | hp2
        · rw [← he]; exact hpf
        · exact absurd ⟨p, hp2, hpf⟩ hr
      have hqe : (q.1, f) = q := by rw [← hq]
      refine ⟨q.1, by rw [hqe]; exact List.mem_cons_self q rest, ?_⟩
      simp only [List.foldl_cons, if_pos hq]
      exact installedResult_no_match env f rest _
        (fun p hp hpf => hr ⟨p, hp, hpf⟩)

/-- For a file among the path-cache values, `searchFile` performs nothing
and returns the installed rom set of a matching game id. -/
theorem searchFile_cached (env : Env) (f : String)
    (h : f ∈ env.pathCache.map Prod.snd) :
    ∃ gid, (gid, f) ∈ env.pathCache ∧
      searchFile env f = ([], [RomSet.installed gid (env.gameName gid)]) := by
  have hex : ∃ p ∈ env.pathCache, p.2 = f := by
    obtain ⟨p, hp, hpf⟩ := List.mem_map.mp h
    exact ⟨p, hp, hpf⟩
  obtain ⟨gid, hmem, heq⟩ := installedResult_match env f env.pathCache none hex
  refine ⟨gid, hmem, ?_⟩
  rw [searchFile, if_pos h, installedResult, heq]
  rfl

/-- C1: for a file already present among the values of the installed-game
path cache, `search_checksums` performs no checksum computation and no
catalog lookup for the file; the file's result is a single rom set naming
an installed game of the cache, and `import_rom` on that result changes
nothing (in particular it creates no game record) and performs no action. -/
theorem c1_path_cache_short_circuit (env : Env) (f : String)
    (h : f ∈ env.pathCache.map Prod.snd) :
    (searchFile env f).1 = [] ∧
    (∃ gid, (gid, f) ∈ env.pathCache ∧
       (searchFile env f).2 = [RomSet.installed gid (env.gameName gid)]) ∧
    (∀ st rs lg, rs ∈ (searchFile env f).2 →
       import_rom env st rs f lg = ([], st, false)) := by
  obtain ⟨gid, hmem, hsf⟩ := searchFile_cached env f h
  refine ⟨by rw [hsf], ⟨gid, hmem, by rw [hsf]⟩, ?_⟩
  intro st rs lg hrs
  rw [hsf] at hrs
  have : rs = RomSet.installed gid (env.gameName gid) := by simpa using hrs
  rw [this]
  rfl

/-- Witness for C1 at concrete inputs: the cached file is resolved without
hashing, and importing its result is a no-op. -/
theorem c1_path_cache_short_circuit_witness :
    (searchFile demoEnvC1 "/roms/x.sfc").1 = [] ∧
    (searchFile demoEnvC1 "/roms/x.sfc").2 = [RomSet.installed 7 "Existing Game"] ∧
    import_rom demoEnvC1 (initState demoInstallers demoDB)
        (RomSet.installed 7 "Existing Game") "/roms/x.sfc" true =
      ([], initState demoInstallers demoDB, false) := by
  have h := c1_path_cache_short_circuit demoEnvC1 "/roms/x.sfc" (by decide)
  refine ⟨h.1, by decide, ?_⟩
  exact h.2.2 (initState demoInstallers demoDB) (RomSet.installed 7 "Existing Game") true
    (by decide)

/-- A successful `import_rom` under auto-launch ends its events with the
launch of the game it installed. -/
theorem import_rom_launch_event (env : Env) (st : UIState) (rs : RomSet)
    (f : String) (ev : List Event) (st2 : UIState)
    (h : import_rom env st rs f true = (ev, st2, true)) :
    ∃ gid ev0, ev = ev0 ++ [Event.launch gid] := by
  cases rs with
  | errored e => simp [import_rom] at h
  | installed gid nm => simp [import_rom] at h
  | catalog c =>
    rw [import_rom] at h
    rcases hroms : c.roms with _ | ⟨rom, rrest⟩
    · simp [hroms] at h
    rcases hmd : rom.md5 with _ | m
    · simp [hroms, hmd] at h
    rcases hd : (display_game_info env st c).2 with _ | e
    · rcases ha : (add_game env (display_game_info env st c).1 c f).2.2 with e | gid
      · simp [hroms, hmd, hd, ha] at h
      · simp [hroms, hmd, hd, ha] at h
        refine ⟨gid, (add_game env (display_game_info env st c).1 c f).1 ++
          [Event.emitInstalled gid, Event.emitUpdated gid], ?_⟩
        rw [← h.1]
        simp
    · simp [hroms, hmd, hd] at h

/-- A successful pass of the inner loop under auto-launch ends its events
with a launch. -/
theorem processResult_launch_event (env : Env) (f : String) (l : List RomSet) :
    ∀ (st : UIState) (ev : List Event) (st2 : UIState),
      processResult env f true st l = (ev, st2, true) →
      ∃ gid ev0, ev = ev0 ++ [Event.launch gid] := by
  induction l with
  | nil =>
    intro st ev st2 h
    simp [processResult] at h
  | cons rs rest ih =>
    intro st ev st2 h
    rw [processResult] at h
    by_cases hflag : (import_rom env st rs f true).2.2
    · rw [if_pos hflag] at h
      have himp : import_rom env st rs f true =
          ((import_rom env st rs f true).1, (import_rom env st rs f true).2.1,
           (import_rom env st rs f true).2.2) := rfl
      rw [hflag] at himp
      obtain ⟨gid, ev0, he⟩ := import_rom_launch_event env st rs f _ _ himp
      have hev := congrArg (fun t => t.1) h
      simp only at hev
      exact ⟨gid, ev0, by rw [← hev]; exact he⟩
    · rw [if_neg hflag] at h
      have h1 := congrArg (fun t => t.1) h
      have h3 := congrArg (fun t => t.2.2) h
      simp only at h1 h3
      have hq : processResult env f true (import_rom env st rs f true).2.1 rest =
          ((processResult env f true (import_rom env st rs f true).2.1 rest).1,
           (processResult env f true (import_rom env st rs f true).2.1 rest).2.1,
           (processResult env f true (import_rom env st rs f true).2.1 rest).2.2) := rfl
      rw [h3] at hq
      obtain ⟨gid, ev0, he⟩ := ih _ _ _ hq
      exact ⟨gid, (import_rom env st rs f true).1 ++ ev0, by
        rw [← h1, he, List.append_assoc]⟩

/-- Under auto-launch, once a file's import succeeds the whole batch stops:
the files after it contribute nothing. -/
theorem processFiles_append_stop (env : Env) (post : List (String × List RomSet))
    (f : String) (res : List RomSet) :
    ∀ (pre : List (String × List RomSet)) (st : UIState),
      (processFiles env true st pre).2.2 = false →
      (processResult env f true (processFiles env true st pre).2.1 res).2.2 = true →
      processFiles env true st (pre ++ (f, res) :: post) =
        ((processFiles env true st pre).1 ++
           (processResult env f true (processFiles env true st pre).2.1 res).1,
         (processResult env f true (processFiles env true st pre).2.1 res).2.1, true) := by
  intro pre
  induction pre with
  | nil =>
    intro st hpre hsucc
    simp only [processFiles, List.nil_append, Bool.and_true] at hsucc ⊢
    simp [processFiles, hsucc]
  | cons x rest ih =>
    intro st hpre hsucc
    obtain ⟨fn, r⟩ := x
    simp only [processFiles, List.cons_append, Bool.and_true] at hpre hsucc ⊢
    by_cases hp : (processResult env fn true st r).2.2 = true
    · rw [if_pos hp] at hpre
      simp at hpre
    · have hp2 : (processResult env fn true st r).2.2 = false := by simpa using hp
      simp [hp2] at hpre hsucc ⊢
      rw [ih _ hpre hsucc]
      simp [List.append_assoc]

/-- C4: with auto-launch enabled and no installed match, the files are
handled in request order; when no file of the prefix imported successfully
and the next file does, the batch ends right there — its final state is the
one after that file, the files after it are never touched (no persist, no
launch, no notifications for them), and the successful file's events end
with the launch of its game. -/
theorem c4_first_import_short_circuit (env : Env) (st : UIState)
    (pre post : List (String × List RomSet)) (f : String) (res : List RomSet)
    (hpre : (processFiles env true st pre).2.2 = false)
    (hsucc : (processResult env f true (processFiles env true st pre).2.1 res).2.2 = true) :
    processFiles env true st (pre ++ (f, res) :: post) =
      ((processFiles env true st pre).1 ++
         (processResult env f true (processFiles env true st pre).2.1 res).1,
       (processResult env f true (processFiles env true st pre).2.1 res).2.1, true) ∧
    ∃ gid ev0,
      (processResult env f true (processFiles env true st pre).2.1 res).1 =
        ev0 ++ [Event.launch gid] := by
  refine ⟨processFiles_append_stop env post f res pre st hpre hsucc, ?_⟩
  have hq : processResult env f true (processFiles env true st pre).2.1 res =
      ((processResult env f true (processFiles env true st pre).2.1 res).1,
       (processResult env f true (processFiles env true st pre).2.1 res).2.1,
       (processResult env f true (processFiles env true st pre).2.1 res).2.2) := rfl
  rw [hsucc] at hq
  exact processResult_launch_event env f res _ _ _ hq

/-- Witness for C4: three importable files with auto-launch; the batch
result is exactly the state after the first file. -/
theorem c4_first_import_short_circuit_witness :
    processFiles demoEnv true (initState demoInstallers demoDB)
        ([] ++ ("a", [RomSet.catalog demoCat]) ::
          [("b", [RomSet.catalog demoCat]), ("c", [RomSet.catalog demoCat])]) =
      ((processFiles demoEnv true (initState demoInstallers demoDB) []).1 ++
         (processResult demoEnv "a" true
           (processFiles demoEnv true (initState demoInstallers demoDB) []).2.1
           [RomSet.catalog demoCat]).1,
       (processResult demoEnv "a" true
         (processFiles demoEnv true (initState demoInstallers demoDB) []).2.1
         [RomSet.catalog demoCat]).2.1, true) := by
  exact (c4_first_import_short_circuit demoEnv (initState demoInstallers demoDB) []
    [("b", [RomSet.catalog demoCat]), ("c", [RomSet.catalog demoCat])]
    "a" [RomSet.catalog demoCat] rfl rfl).1

/-- Inserting a key with its own `searchFile` result keeps the map coherent. -/
theorem odInsert_coherent (env : Env) (m : List (String × List RomSet)) (k : String)
    (hm : Coherent env m) : Coherent env (odInsert m k (searchFile env k).2) := by
  induction m with
  | nil =>
    intro kv hkv
    simp only [odInsert, List.mem_singleton] at hkv
    rw [hkv]
  | cons x rest ih =>
    obtain ⟨k1, v1⟩ := x
    by_cases hk : k1 = k
    · intro kv hkv
      simp only [odInsert, if_pos hk] at hkv
      rcases List.mem_cons.mp hkv with he | ht
      · rw [he]
      · exact hm kv (List.mem_cons_of_mem _ ht)
    · intro kv hkv
      simp only [odInsert, if_neg hk] at hkv
      rcases List.mem_cons.mp hkv with he | ht
      · rw [he]
        exact hm (k1, v1) (List.mem_cons_self _ _)
      · exact ih (fun kv2 h2 => hm kv2 (List.mem_cons_of_mem _ h2)) kv ht

/-- The inserted binding is in the map after an ordered-dict insert. -/
theorem odInsert_mem_self {α : Type} (m : List (String × α)) (k : String) (v : α) :
    (k, v) ∈ odInsert m k v := by
  induction m with
  | nil => simp [odInsert]
  | cons x rest ih =>
    obtain ⟨k1, v1⟩ := x
    by_cases hk : k1 = k
    · simp [odInsert, if_pos hk]
    · simp only [odInsert, if_neg hk]
      exact List.mem_cons_of_mem _ ih

/-- A binding whose value is its key's own `searchFile` result survives any
coherent ordered-dict insert. -/
theorem odInsert_mem_preserve (env : Env) (m : List (String × List RomSet))
    (k a : String) (b : List RomSet)
    (hab : (a, b) ∈ m) (hcoh : b = (searchFile env a).2) :
    (a, b) ∈ odInsert m k (searchFile env k).2 := by
  induction m with
  | nil => simp at hab
  | cons x rest ih =>
    obtain ⟨k1, v1⟩ := x
    by_cases hk : k1 = k
    · simp only [odInsert, if_pos hk]
      rcases List.mem_cons.mp hab with he | ht
      · have ha : a = k1 := (Prod.mk.injEq _ _ _ _ ▸ he).1
        have hb : b = v1 := (Prod.mk.injEq _ _ _ _ ▸ he).2
        have : (a, b) = (k, (searchFile env k).2) := by
          rw [ha, hk] at hcoh ⊢
          rw [hcoh]
        rw [this]
        exact List.mem_cons_self _ _
      · exact List.mem_cons_of_mem _ ht
    · simp only [odInsert, if_neg hk]
      rcases List.mem_cons.mp hab with he | ht
      · rw [he]
        exact List.mem_cons_self _ _
      · exact List.mem_cons_of_mem _ (ih ht)

/-- The worker pass builds a coherent map containing every requested file. -/
theorem search_checksums_aux (env : Env) (files : List String) :
    ∀ acc : List Event × List (String × List RomSet),
      Coherent env acc.2 →
      Coherent env
        (files.foldl
          (fun acc f =>
            (acc.1 ++ (searchFile env f).1, odInsert acc.2 f (searchFile env f).2))
          acc).2 ∧
      ∀ f : String, (f ∈ files ∨ (f, (searchFile env f).2) ∈ acc.2) →
        (f, (searchFile env f).2) ∈
          (files.foldl
            (fun acc f =>
              (acc.1 ++ (searchFile env f).1, odInsert acc.2 f (searchFile env f).2))
            acc).2 := by
  induction files with
  | nil =>
    intro acc hacc
    refine ⟨hacc, fun f hf => ?_⟩
    rcases hf with h | h
    · simp at h
    · exact h
  | cons g rest ih =>
    intro acc hacc
    have hacc2 : Coherent env (odInsert acc.2 g (searchFile env g).2) :=
      odInsert_coherent env acc.2 g hacc
    simp only [List.foldl_cons]
    constructor
    · exact (ih _ hacc2).1
    · intro f hf
      apply (ih _ hacc2).2
      rcases hf with hf | hf
      · rcases List.mem_cons.mp hf with he | ht
        · right
          rw [he]
          exact odInsert_mem_self acc.2 g (searchFile env g).2
        · left
          exact ht
      · right
        exact odInsert_mem_preserve env acc.2 g f _ hf rfl

/-- A rom set with a `"game"` key in a list makes `firstInstalledIn` find one. -/
theorem firstInstalledIn_isSome (l : List RomSet) (gid : Nat) (nm : String)
    (h : RomSet.installed gid nm ∈ l) : (firstInstalledIn l).isSome := by
  induction l with
  | nil => simp at h
  | cons rs rest ih =>
    cases rs with
    | installed g n2 => simp [firstInstalledIn]
    | catalog c =>
      rcases List.mem_cons.mp h with he | ht
      · exact absurd he (by simp)
      · simpa [firstInstalledIn] using ih ht
    | errored e =>
      rcases List.mem_cons.mp h with he | ht
      · exact absurd he (by simp)
      · simpa [firstInstalledIn] using ih ht

/-- What `firstInstalledIn` returns is the id of an installed rom set of the
list. -/
theorem firstInstalledIn_sound (l : List RomSet) (gid : Nat)
    (h : firstInstalledIn l = some gid) : ∃ nm, RomSet.installed gid nm ∈ l := by
  induction l with
  | nil => simp [firstInstalledIn] at h
  | cons rs rest ih =>
    cases rs with
    | installed g nm =>
      simp only [firstInstalledIn, Option.some.injEq] at h
      exact ⟨nm, by rw [h]; exact List.mem_cons_self _ _⟩
    | catalog c =>
      obtain ⟨nm, hm⟩ := ih (by simpa [firstInstalledIn] using h)
      exact ⟨nm, List.mem_cons_of_mem _ hm⟩
    | errored e =>
      obtain ⟨nm, hm⟩ := ih (by simpa [firstInstalledIn] using h)
      exact ⟨nm, List.mem_cons_of_mem _ hm⟩

/-- Any installed rom set anywhere in the result map makes `firstInstalled`
find one. -/
theorem firstInstalled_isSome (results : List (String × List RomSet)) (fn : String)
    (r : List RomSet) (gid : Nat) (nm : String)
    (hm : (fn, r) ∈ results) (hin : RomSet.installed gid nm ∈ r) :
    (firstInstalled results).isSome := by
  induction results with
  | nil => simp at hm
  | cons x rest ih =>
    obtain ⟨fn1, r1⟩ := x
    rw [firstInstalled]
    rcases hfi : firstInstalledIn r1 with _ | g
    · rcases List.mem_cons.mp hm with he | ht
      · exfalso
        have hr : r = r1 := (Prod.mk.injEq _ _ _ _ ▸ he).2
        have := firstInstalledIn_isSome r1 gid nm (hr ▸ hin)
        rw [hfi] at this
        simp at this
      · simpa using ih ht
    · simp

/-- What `firstInstalled` returns is the id of an installed rom set of some
entry of the result map. -/
theorem firstInstalled_sound (results : List (String × List RomSet)) (gid : Nat)
    (h : firstInstalled results = some gid) :
    ∃ fn r nm, (fn, r) ∈ results ∧ RomSet.installed gid nm ∈ r := by
  induction results with
  | nil => simp [firstInstalled] at h
  | cons x rest ih =>
    obtain ⟨fn1, r1⟩ := x
    rw [firstInstalled] at h
    rcases hfi : firstInstalledIn r1 with _ | g
    · rw [hfi] at h
      obtain ⟨fn2, r2, nm, hmem, hin⟩ := ih h
      exact ⟨fn2, r2, nm, List.mem_cons_of_mem _ hmem, hin⟩
    · rw [hfi] at h
      simp only [Option.some.injEq] at h
      obtain ⟨nm, hin⟩ := firstInstalledIn_sound r1 g hfi
      exact ⟨fn1, r1, nm, List.mem_cons_self _ _, h ▸ hin⟩

set_option maxHeartbeats 1000000 in
/-- For a file that is not in the path cache, no rom set of its result
carries a `"game"` key. -/
theorem searchFile_no_game (env : Env) (f : String)
    (hc : ¬ f ∈ env.pathCache.map Prod.snd) (rs : RomSet)
    (h : rs ∈ (searchFile env f).2) : rs.gameKey = none := by
  rcases hm : (if endsWithZip f then env.md5OfZip f else env.md5OfFile f) with e | md5
  · simp only [searchFile, if_neg hc, hm] at h
    simp only [List.mem_singleton] at h
    rw [h]
    rfl
  · rcases hl : env.searchTosec md5 with e | l
    · simp only [searchFile, if_neg hc, hm, hl] at h
      simp only [List.mem_singleton] at h
      rw [h]
      rfl
    · cases l with
      | nil =>
        simp only [searchFile, if_neg hc, hm, hl] at h
        simp only [List.mem_singleton] at h
        rw [h]
        rfl
      | cons c cs =>
        simp only [searchFile, if_neg hc, hm, hl] at h
        obtain ⟨c2, hc2, he⟩ := List.mem_map.mp h
        rw [← he]
        rfl

/-- A key of an ordered-dict insert's result is the inserted key or an
existing binding. -/
theorem odInsert_mem_inv {α : Type} (m : List (String × α)) (k a : String)
    (v b : α) (h : (a, b) ∈ odInsert m k v) : a = k ∨ (a, b) ∈ m := by
  induction m with
  | nil =>
    simp only [odInsert, List.mem_singleton] at h
    exact Or.inl (Prod.mk.injEq _ _ _ _ ▸ h).1
  | cons x rest ih =>
    obtain ⟨k1, v1⟩ := x
    by_cases hk : k1 = k
    · simp only [odInsert, if_pos hk] at h
      rcases List.mem_cons.mp h with he | ht
      · exact Or.inl (Prod.mk.injEq _ _ _ _ ▸ he).1
      · exact Or.inr (List.mem_cons_of_mem _ ht)
    · simp only [odInsert, if_neg hk] at h
      rcases List.mem_cons.mp h with he | ht
      · exact Or.inr (he ▸ List.mem_cons_self _ _)
      · rcases ih ht with h1 | h1
        · exact Or.inl h1
        · exact Or.inr (List.mem_cons_of_mem _ h1)

/-- Every key of the map built by the worker pass is one of the files. -/
theorem search_checksums_keys (env : Env) (files : List String) :
    ∀ (acc : List Event × List (String × List RomSet)) (a : String)
      (b : List RomSet),
      (a, b) ∈
        (files.foldl
          (fun acc f =>
            (acc.1 ++ (searchFile env f).1, odInsert acc.2 f (searchFile env f).2))
          acc).2 →
      a ∈ files ∨ (a, b) ∈ acc.2 := by
  induction files with
  | nil =>
    intro acc a b h
    exact Or.inr h
  | cons g rest ih =>
    intro acc a b h
    simp only [List.foldl_cons] at h
    rcases ih _ a b h with h1 | h1
    · exact Or.inl (List.mem_cons_of_mem _ h1)
    · rcases odInsert_mem_inv acc.2 g a _ b h1 with h2 | h2
      · exact Or.inl (h2 ▸ List.mem_cons_self _ _)
      · exact Or.inr h2

/-- Any installed rom set of a `searchFile` result names a cache entry of
its file. -/
theorem searchFile_game_from_cache (env : Env) (f : String) (gid : Nat)
    (nm : String) (h : RomSet.installed gid nm ∈ (searchFile env f).2) :
    (gid, f) ∈ env.pathCache := by
  by_cases hc : f ∈ env.pathCache.map Prod.snd
  · obtain ⟨g2, hmem, hsf⟩ := searchFile_cached env f hc
    rw [hsf] at h
    simp only [List.mem_singleton, RomSet.installed.injEq] at h
    rw [h.1]
    exact hmem
  · have := searchFile_no_game env f hc _ h
    simp [RomSet.gameKey] at this

/-- C3: with auto-launch enabled, when some file of the batch is among the
path-cache values, `search_result_finished` launches an installed game of
the cache and does nothing else: no import action is performed for any
file, the state is returned unchanged. -/
theorem c3_installed_match_launches (env : Env) (files : List String) (f : String)
    (st : UIState) (hmem : f ∈ files) (hcache : f ∈ env.pathCache.map Prod.snd) :
    ∃ gid fn, fn ∈ files ∧ (gid, fn) ∈ env.pathCache ∧
      search_result_finished env st (search_checksums env files).2 true =
        ([Event.launch gid], st) := by
  obtain ⟨g0, hg0, hsf⟩ := searchFile_cached env f hcache
  have haux := search_checksums_aux env files (([], []) : List Event × List (String × List RomSet))
    (fun kv hkv => absurd hkv (List.not_mem_nil kv))
  have hres : (f, (searchFile env f).2) ∈ (search_checksums env files).2 :=
    haux.2 f (Or.inl hmem)
  have hin : RomSet.installed g0 (env.gameName g0) ∈ (searchFile env f).2 := by
    rw [hsf]
    exact List.mem_cons_self _ _
  have hsome := firstInstalled_isSome (search_checksums env files).2 f _ g0 _ hres hin
  obtain ⟨gid, hgid⟩ := Option.isSome_iff_exists.mp hsome
  obtain ⟨fn, r, nm, hmr, hinr⟩ := firstInstalled_sound _ gid hgid
  have hr : r = (searchFile env fn).2 := haux.1 (fn, r) hmr
  have hcachegid : (gid, fn) ∈ env.pathCache :=
    searchFile_game_from_cache env fn gid nm (hr ▸ hinr)
  have hfnfiles : fn ∈ files := by
    rcases search_checksums_keys env files (([], []) :
        List Event × List (String × List RomSet)) fn r hmr with h1 | h1
    · exact h1
    · exact absurd h1 (List.not_mem_nil _)
  refine ⟨gid, fn, hfnfiles, hcachegid, ?_⟩
  rw [search_result_finished, if_pos rfl, hgid]

/-- Witness for C3: a batch of one fresh file and one cached file launches
the cached file's game and performs no import. -/
theorem c3_installed_match_launches_witness :
    search_result_finished demoEnvC1 (initState demoInstallers demoDB)
        (search_checksums demoEnvC1 ["/roms/y.sfc", "/roms/x.sfc"]).2 true =
      ([Event.launch 7], initState demoInstallers demoDB) := by
  obtain ⟨gid, fn, hfn, hgid, heq⟩ := c3_installed_match_launches demoEnvC1
    ["/roms/y.sfc", "/roms/x.sfc"] "/roms/x.sfc" (initState demoInstallers demoDB)
    (by decide) (by decide)
  have hpc : demoEnvC1.pathCache = [(7, "/roms/x.sfc")] := rfl
  rw [hpc] at hgid
  have h7 : gid = 7 := by
    have := List.mem_singleton.mp hgid
    exact (Prod.mk.injEq _ _ _ _ ▸ this).1
  rw [h7] at heq
  exact heq

/-- `display_game_info` touches only `self.platform`: database, error labels
and installer store are unchanged. -/
theorem display_game_info_frame (env : Env) (st : UIState) (c : CatRomSet) :
    (display_game_info env st c).1.db = st.db ∧
    (display_game_info env st c).1.errorLabels = st.errorLabels ∧
    (display_game_info env st c).1.installers = st.installers := by
  rcases hn : c.name with _ | n
  · simp [display_game_info, hn]
  rcases hcat : c.category with _ | cat
  · simp [display_game_info, hn, hcat]
  rcases hp : env.guessPlatform c with _ | p <;>
    simp [display_game_info, hn, hcat, hp]

/-- `add_game` either fails leaving the state untouched, or succeeds adding
exactly one game record and touching no error label. -/
theorem add_game_outcome (env : Env) (st : UIState) (c : CatRomSet) (fp : String) :
    ((add_game env st c fp).2.1 = st ∧ ∃ e, (add_game env st c fp).2.2 = Except.error e)
    ∨ ((∃ g, (add_game env st c fp).2.1.db.games = st.db.games ++ [g]) ∧
       (add_game env st c fp).2.1.errorLabels = st.errorLabels ∧
       ∃ gid, (add_game env st c fp).2.2 = Except.ok gid) := by
  rcases hn : c.name with _ | n
  · left
    constructor
    · simp [add_game, hn]
    · exact ⟨keyErrorMsg "name", by simp [add_game, hn]⟩
  rcases hlk : st.platform >>= lookupAssoc st.installers with _ | tmpl
  · left
    constructor
    · simp [add_game, hn, hlk]
    · exact ⟨"Lutris does not have a default installer for the '" ++
        platformStr st.platform ++ "' platform.", by simp [add_game, hn, hlk]⟩
  rcases hw : env.writeGameConfig (env.slugify (env.cleanRomName n)) (fillRom tmpl fp)
    with e | cfg
  · left
    constructor
    · simp [add_game, hn, hlk, hw]
    · exact ⟨e, by simp [add_game, hn, hlk, hw]⟩
  · right
    refine ⟨⟨{ id := st.db.nextId,
               name := env.cleanRomName n,
               runner := (fillRom tmpl fp).runner,
               slug := env.slugify (env.cleanRomName n),
               directory := "",
               installed := 1,
               installer_slug := env.slugify (env.cleanRomName n) ++ "-" ++
                 (fillRom tmpl fp).runner,
               configpath := cfg }, ?_⟩, ?_, st.db.nextId, ?_⟩ <;>
      simp [add_game, hn, hlk, hw]

/-- C5 (amended): each rom set processed for a file yields at most one of
the two outcomes — a successful import adds exactly one game record and
touches no error label; a failure adds no record and records the failure in
the file's error label; and a rom set that carries neither an error key nor
any rom entry (the installed-match shape, or a catalog candidate with an
empty rom list) yields neither outcome, leaving the state untouched. -/
theorem c5_per_candidate_outcome (env : Env) (st : UIState) (rs : RomSet)
    (f : String) (lg : Bool) :
    ((import_rom env st rs f lg).2.2 = true ∧
       (∃ g, (import_rom env st rs f lg).2.1.db.games = st.db.games ++ [g]) ∧
       (import_rom env st rs f lg).2.1.errorLabels = st.errorLabels)
    ∨ ((import_rom env st rs f lg).2.2 = false ∧
       (import_rom env st rs f lg).2.1.db.games = st.db.games ∧
       ∃ e, (import_rom env st rs f lg).2.1.errorLabels = odInsert st.errorLabels f e)
    ∨ ((import_rom env st rs f lg).2.2 = false ∧
       (import_rom env st rs f lg).2.1 = st ∧
       RomSet.romsKey rs = [] ∧ RomSet.errorKey rs = none) := by
  cases rs with
  | errored e =>
    right; left
    exact ⟨rfl, rfl, e, rfl⟩
  | installed gid nm =>
    right; right
    exact ⟨rfl, rfl, rfl, rfl⟩
  | catalog c =>
    rcases hroms : c.roms with _ | ⟨rom, rrest⟩
    · right; right
      refine ⟨?_, ?_, ?_, rfl⟩ <;> simp [import_rom, RomSet.romsKey, hroms]
    rcases hmd : rom.md5 with _ | m
    · right; left
      refine ⟨?_, ?_, keyErrorMsg "md5", ?_⟩ <;>
        simp [import_rom, hroms, hmd, showError]
    rcases hd : (display_game_info env st c).2 with _ | e
    · rcases add_game_outcome env (display_game_info env st c).1 c f with
        ⟨hst, e, herr⟩ | ⟨⟨g, hg⟩, hlab, gid, hok⟩
      · right; left
        refine ⟨?_, ?_, e, ?_⟩
        · simp [import_rom, hroms, hmd, hd, herr]
        · simp only [import_rom, hroms, hmd, hd, herr]
          simp [showError, hst, (display_game_info_frame env st c).1]
        · simp only [import_rom, hroms, hmd, hd, herr]
          simp [showError, hst, (display_game_info_frame env st c).2.1]
      · left
        refine ⟨?_, ⟨g, ?_⟩, ?_⟩
        · simp [import_rom, hroms, hmd, hd, hok]
        · simp only [import_rom, hroms, hmd, hd, hok]
          simp [hg, (display_game_info_frame env st c).1]
        · simp only [import_rom, hroms, hmd, hd, hok]
          simp [hlab, (display_game_info_frame env st c).2.1]
    · right; left
      refine ⟨?_, ?_, e, ?_⟩
      · simp [import_rom, hroms, hmd, hd]
      · simp only [import_rom, hroms, hmd, hd]
        simp [showError, (display_game_info_frame env st c).1]
      · simp only [import_rom, hroms, hmd, hd]
        simp [showError, (display_game_info_frame env st c).2.1]

/-- C5 (counterexample): a file outside the path cache whose catalog lookup
returns a candidate with an empty rom list ends the whole batch with
neither a game record nor a recorded failure — refuting, as stated, that
every such file is assigned exactly one of the two outcomes. -/
theorem c5_counterexample :
    (runImport demoEnvC5 demoInstallers demoDB ["/roms/a.sfc"] false).2.db.games = [] ∧
    (runImport demoEnvC5 demoInstallers demoDB ["/roms/a.sfc"] false).2.errorLabels = [] := by
  exact ⟨by decide, by decide⟩

/-- C7 (amended): for a file outside the path cache whose checksum was
computed, an empty catalog result yields the not-identified failure message,
while a catalog lookup error yields a failure carrying that error's own
message; in both cases the single errored rom set is recorded on the file's
error label and the remaining files keep being processed. -/
theorem c7_lookup_failures (env : Env) (st : UIState) (f md5 e : String)
    (rest : List (String × List RomSet))
    (hc : ¬ f ∈ env.pathCache.map Prod.snd)
    (hh : (if endsWithZip f then env.md5OfZip f else env.md5OfFile f) = Except.ok md5)
    (hlk : env.searchTosec md5 = Except.error e ∨ env.searchTosec md5 = Except.ok []) :
    ∃ msg, (searchFile env f).2 = [RomSet.errored msg] ∧
      (env.searchTosec md5 = Except.error msg ∨
        (env.searchTosec md5 = Except.ok [] ∧ msg = notIdentifiedMsg)) ∧
      processFiles env false st ((f, [RomSet.errored msg]) :: rest) =
        processFiles env false (showError st f msg) rest := by
  have hpf : ∀ msg : String,
      processFiles env false st ((f, [RomSet.errored msg]) :: rest) =
        processFiles env false (showError st f msg) rest := by
    intro msg
    simp [processFiles, processResult, import_rom]
  rcases hlk with hlk | hlk
  · exact ⟨e, by simp only [searchFile, if_neg hc, hh, hlk], Or.inl hlk, hpf e⟩
  · exact ⟨notIdentifiedMsg, by simp only [searchFile, if_neg hc, hh, hlk],
      Or.inr ⟨hlk, rfl⟩, hpf notIdentifiedMsg⟩

/-- Witness for C7's amended statement at concrete inputs. -/
theorem c7_lookup_failures_witness :
    (searchFile demoEnvC7 "/roms/a.sfc").2 =
      [RomSet.errored "Unable to connect to server"] ∧
    processFiles demoEnvC7 false (initState demoInstallers demoDB)
        [("/roms/a.sfc", [RomSet.errored "Unable to connect to server"])] =
      processFiles demoEnvC7 false
        (showError (initState demoInstallers demoDB) "/roms/a.sfc"
          "Unable to connect to server") [] := by
  obtain ⟨msg, h1, h2, h3⟩ := c7_lookup_failures demoEnvC7
    (initState demoInstallers demoDB) "/roms/a.sfc" "abc123"
    "Unable to connect to server" [] (by decide) rfl (Or.inl rfl)
  have hmsg : msg = "Unable to connect to server" := by
    rcases h2 with h | ⟨h, _⟩
    · have h0 : (Except.error "Unable to connect to server" :
          Except String (List CatRomSet)) = Except.error msg := h
      exact (Except.error.inj h0).symm
    · have h0 : (Except.error "Unable to connect to server" :
          Except String (List CatRomSet)) = Except.ok [] := h
      exact absurd h0 (by simp)
  rw [hmsg] at h1 h3
  exact ⟨h1, h3⟩

/-- C7 (counterexample): when the catalog lookup raises, the recorded
failure reason is the lookup error's own message, not the not-identified
reason the claim states for both cases. -/
theorem c7_counterexample :
    (runImport demoEnvC7 demoInstallers demoDB ["/roms/a.sfc"] false).2.errorLabels =
      [("/roms/a.sfc", "Unable to connect to server")] ∧
    "Unable to connect to server" ≠ notIdentifiedMsg := by
  exact ⟨by decide, by decide⟩

/-- `add_game` never writes the default-installer store. -/
theorem add_game_installers (env : Env) (st : UIState) (c : CatRomSet) (fp : String) :
    (add_game env st c fp).2.1.installers = st.installers := by
  rcases hn : c.name with _ | n
  · simp [add_game, hn]
  rcases hlk : st.platform >>= lookupAssoc st.installers with _ | tmpl
  · simp [add_game, hn, hlk]
  rcases hw : env.writeGameConfig (env.slugify (env.cleanRomName n)) (fillRom tmpl fp)
    with e | cfg <;> simp [add_game, hn, hlk, hw]

/-- `import_rom` never writes the default-installer store. -/
theorem import_rom_installers (env : Env) (st : UIState) (rs : RomSet)
    (f : String) (lg : Bool) :
    (import_rom env st rs f lg).2.1.installers = st.installers := by
  cases rs with
  | errored e => rfl
  | installed gid nm => rfl
  | catalog c =>
    rcases hroms : c.roms with _ | ⟨rom, rrest⟩
    · simp [import_rom, hroms]
    rcases hmd : rom.md5 with _ | m
    · simp [import_rom, hroms, hmd, showError]
    rcases hd : (display_game_info env st c).2 with _ | e
    · rcases ha : (add_game env (display_game_info env st c).1 c f).2.2 with e | gid
      · simp only [import_rom, hroms, hmd, hd, ha]
        simp [showError, add_game_installers, (display_game_info_frame env st c).2.2]
      · simp only [import_rom, hroms, hmd, hd, ha]
        simp [add_game_installers, (display_game_info_frame env st c).2.2]
    · simp only [import_rom, hroms, hmd, hd]
      simp [showError, (display_game_info_frame env st c).2.2]

/-- The inner loop never writes the default-installer store. -/
theorem processResult_installers (env : Env) (f : String) (lg : Bool) :
    ∀ (l : List RomSet) (st : UIState),
      (processResult env f lg st l).2.1.installers = st.installers := by
  intro l
  induction l with
  | nil => intro st; rfl
  | cons rs rest ih =>
    intro st
    rw [processResult]
    by_cases hb : (import_rom env st rs f lg).2.2 = true
    · rw [if_pos hb]
      exact import_rom_installers env st rs f lg
    · rw [if_neg hb]
      rw [ih _]
      exact import_rom_installers env st rs f lg

/-- The outer loop never writes the default-installer store. -/
theorem processFiles_installers (env : Env) (lg : Bool) :
    ∀ (results : List (String × List RomSet)) (st : UIState),
      (processFiles env lg st results).2.1.installers = st.installers := by
  intro results
  induction results with
  | nil => intro st; rfl
  | cons x rest ih =>
    intro st
    obtain ⟨fn, r⟩ := x
    rw [processFiles]
    by_cases hb : ((processResult env fn lg st r).2.2 && lg) = true
    · rw [if_pos hb]
      exact processResult_installers env fn lg r st
    · rw [if_neg hb]
      rw [ih _]
      exact processResult_installers env fn lg r st

/-- C8: the default-installer store is only ever read: a whole import run
returns it unchanged, and a successful `add_game` leaves it intact while
the config it writes is `fillRom` applied to a copy — afterwards the store
still maps the platform to the original template, and the written installer
is the filled copy, not the stored one. -/
theorem c8_store_immutable (env : Env) (installers : List (String × Installer))
    (db : DB) (files : List String) (lg : Bool)
    (st : UIState) (c : CatRomSet) (fp n p : String) (tmpl : Installer)
    (ev : List Event) (st2 : UIState) (gid : Nat)
    (hname : c.name = some n)
    (hplat : st.platform = some p)
    (htmpl : lookupAssoc st.installers p = some tmpl)
    (hadd : add_game env st c fp = (ev, st2, Except.ok gid)) :
    (runImport env installers db files lg).2.installers = installers ∧
    st2.installers = st.installers ∧
    lookupAssoc st2.installers p = some tmpl ∧
    Event.configWrite (env.slugify (env.cleanRomName n)) (fillRom tmpl fp) ∈ ev := by
  have hst2 : st2.installers = st.installers := by
    have := add_game_installers env st c fp
    rw [hadd] at this
    exact this
  refine ⟨?_, hst2, by rw [hst2]; exact htmpl, ?_⟩
  · rw [runImport, search_result_finished]
    by_cases hl : lg = true
    · rw [if_pos hl]
      rcases hfi : firstInstalled (search_checksums env files).2 with _ | gid2
      · exact processFiles_installers env lg _ (initState installers db)
      · rfl
    · rw [if_neg hl]
      exact processFiles_installers env lg _ (initState installers db)
  · rw [add_game, hname] at hadd
    rw [hplat] at hadd
    simp only [Option.bind_eq_bind, Option.some_bind] at hadd
    rw [htmpl] at hadd
    rcases hw : env.writeGameConfig (env.slugify (env.cleanRomName n)) (fillRom tmpl fp)
      with e | cfg
    · simp [hw] at hadd
    · simp only [hw] at hadd
      have hev : ev = [Event.installerLookup (platformStr (some p)),
          Event.configWrite (env.slugify (env.cleanRomName n)) (fillRom tmpl fp),
          Event.dbInsert st.db.nextId,
          Event.mediaDownload (env.slugify (env.cleanRomName n))
            (env.downloadMedia (env.slugify (env.cleanRomName n)))] := by
        have h1 := congrArg (fun t => t.1) hadd
        simp only at h1
        exact h1.symm
      rw [hev]
      simp

/-- Witness for C8: a concrete import run returns the store unchanged and
writes only the filled copy of the template. -/
theorem c8_store_immutable_witness :
    (runImport demoEnv demoInstallers demoDB ["/roms/a.sfc"] false).2.installers =
      demoInstallers ∧
    Event.configWrite "Super Game (USA)" (fillRom demoInstaller "/roms/a.sfc") ∈
      (add_game demoEnv demoState demoCat "/roms/a.sfc").1 := by
  have h := c8_store_immutable demoEnv demoInstallers demoDB ["/roms/a.sfc"] false
    demoState demoCat "/roms/a.sfc" "Super Game (USA)" "snes" demoInstaller
    (add_game demoEnv demoState demoCat "/roms/a.sfc").1
    (add_game demoEnv demoState demoCat "/roms/a.sfc").2.1 10
    rfl rfl rfl (by rfl)
  exact ⟨h.1, h.2.2.2⟩

/-- The worker pass never consults the media-download collaborator. -/
theorem searchFile_dm (env : Env) (d : String → Bool) (f : String) :
    searchFile { env with downloadMedia := d } f = searchFile env f := rfl

/-- The worker pass never consults the media-download collaborator. -/
theorem search_checksums_dm (env : Env) (d : String → Bool) (files : List String) :
    search_checksums { env with downloadMedia := d } files =
      search_checksums env files := by
  unfold search_checksums
  simp only [searchFile_dm]

/-- `display_game_info` never consults the media-download collaborator. -/
theorem display_game_info_dm (env : Env) (d : String → Bool) (st : UIState)
    (c : CatRomSet) :
    display_game_info { env with downloadMedia := d } st c =
      display_game_info env st c := rfl

/-- Two `add_game` runs differing only in the media-download collaborator
agree on state and result, and on all events apart from the media result. -/
theorem add_game_dm (env : Env) (d1 d2 : String → Bool) (st : UIState)
    (c : CatRomSet) (fp : String) :
    (add_game { env with downloadMedia := d1 } st c fp).2 =
      (add_game { env with downloadMedia := d2 } st c fp).2 ∧
    (add_game { env with downloadMedia := d1 } st c fp).1.map Event.stripMedia =
      (add_game { env with downloadMedia := d2 } st c fp).1.map Event.stripMedia := by
  rcases hn : c.name with _ | n
  · exact ⟨by simp [add_game, hn], by simp [add_game, hn]⟩
  rcases hlk : st.platform >>= lookupAssoc st.installers with _ | tmpl
  · exact ⟨by simp [add_game, hn, hlk], by simp [add_game, hn, hlk]⟩
  rcases hw : env.writeGameConfig (env.slugify (env.cleanRomName n)) (fillRom tmpl fp)
    with e | cfg
  · exact ⟨by simp [add_game, hn, hlk, hw], by simp [add_game, hn, hlk, hw]⟩
  · exact ⟨by simp [add_game, hn, hlk, hw],
      by simp [add_game, hn, hlk, hw, Event.stripMedia]⟩

/-- Two `import_rom` runs differing only in the media-download collaborator
agree on state and flag, and on all events apart from the media result. -/
theorem import_rom_dm (env : Env) (d1 d2 : String → Bool) (st : UIState)
    (rs : RomSet) (f : String) (lg : Bool) :
    (import_rom { env with downloadMedia := d1 } st rs f lg).2 =
      (import_rom { env with downloadMedia := d2 } st rs f lg).2 ∧
    (import_rom { env with downloadMedia := d1 } st rs f lg).1.map Event.stripMedia =
      (import_rom { env with downloadMedia := d2 } st rs f lg).1.map Event.stripMedia := by
  cases rs with
  | errored e => exact ⟨rfl, rfl⟩
  | installed gid nm => exact ⟨rfl, rfl⟩
  | catalog c =>
    rcases hroms : c.roms with _ | ⟨rom, rrest⟩
    · exact ⟨by simp [import_rom, hroms], by simp [import_rom, hroms]⟩
    rcases hmd : rom.md5 with _ | m
    · exact ⟨by simp [import_rom, hroms, hmd], by simp [import_rom, hroms, hmd]⟩
    rcases hd : (display_game_info env st c).2 with _ | e
    · obtain ⟨hst, hev⟩ := add_game_dm env d1 d2 (display_game_info env st c).1 c f
      have hflag := congrArg Prod.snd hst
      have hstate := congrArg Prod.fst hst
      simp only at hflag hstate
      rcases ha : (add_game { env with downloadMedia := d2 }
          (display_game_info env st c).1 c f).2.2 with e | gid
      · have ha1 := hflag.trans ha
        constructor
        · simp only [import_rom, hroms, hmd, display_game_info_dm, hd, ha, ha1]
          rw [hstate]
        · simp only [import_rom, hroms, hmd, display_game_info_dm, hd, ha, ha1]
          exact hev
      · have ha1 := hflag.trans ha
        constructor
        · simp only [import_rom, hroms, hmd, display_game_info_dm, hd, ha, ha1]
          rw [hstate]
        · simp only [import_rom, hroms, hmd, display_game_info_dm, hd, ha, ha1]
          simp [List.map_append, hev]
    · exact ⟨by simp [import_rom, hroms, hmd, display_game_info_dm, hd],
        by simp [import_rom, hroms, hmd, display_game_info_dm, hd]⟩

/-- Two inner-loop runs differing only in the media-download collaborator
agree on state and flag, and on all events apart from the media result. -/
theorem processResult_dm (env : Env) (d1 d2 : String → Bool) (f : String)
    (lg : Bool) :
    ∀ (l : List RomSet) (st : UIState),
      (processResult { env with downloadMedia := d1 } f lg st l).2 =
        (processResult { env with downloadMedia := d2 } f lg st l).2 ∧
      (processResult { env with downloadMedia := d1 } f lg st l).1.map
          Event.stripMedia =
        (processResult { env with downloadMedia := d2 } f lg st l).1.map
          Event.stripMedia := by
  intro l
  induction l with
  | nil => exact fun st => ⟨rfl, rfl⟩
  | cons rs rest ih =>
    intro st
    obtain ⟨hst, hev⟩ := import_rom_dm env d1 d2 st rs f lg
    have hflag := congrArg Prod.snd hst
    have hstate := congrArg Prod.fst hst
    simp only at hflag hstate
    simp only [processResult]
    by_cases hb : (import_rom { env with downloadMedia := d2 } st rs f lg).2.2 = true
    · rw [if_pos hb, if_pos (hflag.trans hb)]
      exact ⟨by rw [hstate], hev⟩
    · have hb1 : ¬ (import_rom { env with downloadMedia := d1 } st rs f lg).2.2 = true := by
        rw [hflag]
        exact hb
      rw [if_neg hb, if_neg hb1]
      constructor
      · rw [hstate]
        exact (ih _).1
      · rw [hstate]
        simp [List.map_append, hev, (ih _).2]

/-- Two outer-loop runs differing only in the media-download collaborator
agree on state and flag, and on all events apart from the media result. -/
theorem processFiles_dm (env : Env) (d1 d2 : String → Bool) (lg : Bool) :
    ∀ (results : List (String × List RomSet)) (st : UIState),
      (processFiles { env with downloadMedia := d1 } lg st results).2 =
        (processFiles { env with downloadMedia := d2 } lg st results).2 ∧
      (processFiles { env with downloadMedia := d1 } lg st results).1.map
          Event.stripMedia =
        (processFiles { env with downloadMedia := d2 } lg st results).1.map
          Event.stripMedia := by
  intro results
  induction results with
  | nil => exact fun st => ⟨rfl, rfl⟩
  | cons x rest ih =>
    intro st
    obtain ⟨fn, r⟩ := x
    obtain ⟨hst, hev⟩ := processResult_dm env d1 d2 fn lg r st
    have hflag := congrArg Prod.snd hst
    have hstate := congrArg Prod.fst hst
    simp only at hflag hstate
    simp only [processFiles]
    by_cases hb : ((processResult { env with downloadMedia := d2 } fn lg st r).2.2
        && lg) = true
    · rw [if_pos hb, if_pos (by rw [hflag]; exact hb)]
      exact ⟨by rw [hstate], hev⟩
    · have hb1 : ¬ ((processResult { env with downloadMedia := d1 } fn lg st r).2.2
          && lg) = true := by
        rw [hflag]
        exact hb
      rw [if_neg hb, if_neg hb1]
      constructor
      · rw [hstate]
        exact (ih _).1
      · rw [hstate]
        simp [List.map_append, hev, (ih _).2]

/-- Two result-processing runs differing only in the media-download
collaborator agree on the final state and on all events apart from the
media result. -/
theorem search_result_finished_dm (env : Env) (d1 d2 : String → Bool)
    (st : UIState) (results : List (String × List RomSet)) (lg : Bool) :
    (search_result_finished { env with downloadMedia := d1 } st results lg).2 =
      (search_result_finished { env with downloadMedia := d2 } st results lg).2 ∧
    (search_result_finished { env with downloadMedia := d1 } st results lg).1.map
        Event.stripMedia =
      (search_result_finished { env with downloadMedia := d2 } st results lg).1.map
        Event.stripMedia := by
  obtain ⟨hst, hev⟩ := processFiles_dm env d1 d2 lg results st
  have hstate := congrArg Prod.fst hst
  simp only at hstate
  rw [search_result_finished, search_result_finished]
  by_cases hl : lg = true
  · rw [if_pos hl, if_pos hl]
    rcases hfi : firstInstalled results with _ | gid
    · simp only [hfi]
      exact ⟨hstate, hev⟩
    · simp [hfi]
  · rw [if_neg hl, if_neg hl]
    exact ⟨hstate, hev⟩

/-- C2: whenever a persist (`add_game`) succeeds, the media download for the
slug derived from the cleaned display name is among its events; and the
media-download collaborator's result changes nothing observable — two whole
runs differing only in it produce the same final state (database, error
labels, everything) and the same events apart from the recorded media
result, so a media-download failure cannot make an import report `Failed`. -/
theorem c2_media_download (env : Env) (d1 d2 : String → Bool)
    (installers : List (String × Installer)) (db : DB) (files : List String)
    (lg : Bool) (st : UIState) (c : CatRomSet) (fp n : String)
    (ev : List Event) (st2 : UIState) (gid : Nat)
    (hname : c.name = some n)
    (hadd : add_game env st c fp = (ev, st2, Except.ok gid)) :
    Event.mediaDownload (env.slugify (env.cleanRomName n))
        (env.downloadMedia (env.slugify (env.cleanRomName n))) ∈ ev ∧
    (runImport { env with downloadMedia := d1 } installers db files lg).2 =
      (runImport { env with downloadMedia := d2 } installers db files lg).2 ∧
    (runImport { env with downloadMedia := d1 } installers db files lg).1.map
        Event.stripMedia =
      (runImport { env with downloadMedia := d2 } installers db files lg).1.map
        Event.stripMedia := by
  refine ⟨?_, ?_⟩
  · rw [add_game, hname] at hadd
    rcases hlk : st.platform >>= lookupAssoc st.installers with _ | tmpl
    · simp [hlk] at hadd
    rcases hw : env.writeGameConfig (env.slugify (env.cleanRomName n))
        (fillRom tmpl fp) with e | cfg
    · simp [hlk, hw] at hadd
    · simp only [hlk, hw] at hadd
      have h1 := congrArg Prod.fst hadd
      simp only at h1
      rw [← h1]
      simp
  · rw [runImport, runImport]
    simp only [search_checksums_dm]
    obtain ⟨hr2, hr1⟩ := search_result_finished_dm env d1 d2
      (initState installers db) (search_checksums env files).2 lg
    exact ⟨hr2, by simp [List.map_append, hr1]⟩

/-- Witness for C2 at concrete inputs: the media event is emitted, and
flipping the media result to failure leaves the final state unchanged. -/
theorem c2_media_download_witness :
    Event.mediaDownload "Super Game (USA)" true ∈
      (add_game demoEnv demoState demoCat "/roms/a.sfc").1 ∧
    (runImport { demoEnv with downloadMedia := fun _ => true } demoInstallers demoDB
        ["/roms/a.sfc"] false).2 =
      (runImport { demoEnv with downloadMedia := fun _ => false } demoInstallers demoDB
        ["/roms/a.sfc"] false).2 := by
  have h := c2_media_download demoEnv (fun _ => true) (fun _ => false) demoInstallers
    demoDB ["/roms/a.sfc"] false demoState demoCat "/roms/a.sfc" "Super Game (USA)"
    (add_game demoEnv demoState demoCat "/roms/a.sfc").1
    (add_game demoEnv demoState demoCat "/roms/a.sfc").2.1 10 rfl (by rfl)
  exact ⟨h.1, h.2.1⟩

end GameImport
